import Mathlib

/-!
# Shallow embedding of the diesel-monitor core

This file embeds the core of `src/services/dieselMonitor.js` of the
alkanes-diesel-monitor repository: transaction classification
(`isDieselMintTransaction`, `hasOpReturn`), fee-rate computation
(`calculateFeeRate`), block processing (`processBlock`, `findWinningTransaction`,
`addDieselMintTransaction`, `scanNewBlocks`) and mempool scanning
(`scanMempool`, `updateHighestGasRate`, the prefilter and batch fetch).

Modelling conventions:
* JS numbers (BTC values, fee rates) are modelled as rationals `ℚ`;
  timestamps as `Int` (milliseconds); sizes and heights as `Nat`.
* Optional / possibly-`undefined` JS fields are `Option`; numeric fields whose
  absence and `0` behave identically under JS truthiness (`||`, `if (x)`) are
  plain `Nat` with `0` for "absent".
* JS `Map` is an association list updated in place by `mapSet`; JS `Set` is a
  duplicate-free list extended by `setAdd`; both preserve insertion order.
* RPC calls that may fail are oracles returning `Option`: `none` models a
  thrown transport error, which the source catches.  The per-batch mempool
  detail fetch (with its retry loop) is collapsed into a per-txid oracle
  `fetchTx : String → Option Tx`: a txid maps to `none` when its batch
  exhausted its retries or the batch result did not include it.
-/

namespace DieselMonitor

/-- Does the first character list start with the second?
(JS `String.prototype.startsWith`.) -/
def charsStarts : List Char → List Char → Bool
  | _, [] => true
  | [], _ :: _ => false
  | a :: as, b :: bs => a == b && charsStarts as bs

/-- Does the first character list contain the second as a contiguous run?
(JS `String.prototype.includes`.) -/
def charsContains : List Char → List Char → Bool
  | [], n => charsStarts [] n
  | a :: as, n => charsStarts (a :: as) n || charsContains as n

/-- JS `s.startsWith(p)`. -/
def strStarts (s p : String) : Bool := charsStarts s.data p.data

/-- JS `s.includes(p)`. -/
def strContains (s p : String) : Bool := charsContains s.data p.data

/-- JS `a || d` on an optional string: `undefined` and `""` are falsy. -/
def jsOrStr (a : Option String) (d : String) : String :=
  match a with
  | some s => if s = "" then d else s
  | none => d

/-- JS `a || b` on numbers where absence and `0` are both falsy. -/
def jsOrNat (a b : Nat) : Nat := if a ≠ 0 then a else b

/-- One transaction output as delivered by the node, with the heterogeneous
field spellings the source inspects (`scriptPubKey.type`, `scriptpubkey_type`,
`scriptpubkey_asm`, `scriptPubKey.asm`, `scriptPubKey.hex`, `scriptpubkey`). -/
structure TxOut where
  value : ℚ
  scriptPubKeyType : Option String := none
  scriptpubkeyType : Option String := none
  scriptPubKeyAsm : Option String := none
  scriptpubkeyAsm : Option String := none
  scriptPubKeyHex : Option String := none
  scriptpubkey : Option String := none
  deriving Repr, DecidableEq

/-- One transaction input.  `prevoutValue` is `vin.prevout.value` when the
previous output is resolvable, `none` otherwise; `prevoutAddress` is
`vin.prevout.scriptPubKey.address`. -/
structure TxIn where
  prevoutValue : Option ℚ := none
  prevoutAddress : Option String := none
  deriving Repr, DecidableEq

/-- A transaction.  `vsize`, `size` and `weight` are `0` when the node did not
report them (JS `undefined` and `0` behave identically in the source's `||`
chains). -/
structure Tx where
  txid : String
  vin : List TxIn := []
  vout : List TxOut := []
  vsize : Nat := 0
  size : Nat := 0
  weight : Nat := 0
  deriving Repr, DecidableEq

/-- `config.alkanes.diesel.maxHistoryRecords` from `src/config/index.js`. -/
def maxHistoryRecords : Nat := 50

/-- The DIESEL signature hex run checked by `isDieselMintTransaction`. -/
def dieselPattern : String := "ff7f818cec82d08bc0a88281d215"

/-- `hasOpReturn(tx)` (dieselMonitor.js:219): any output recognized as an
OP_RETURN under one of five spellings. -/
def hasOpReturn (tx : Tx) : Bool :=
  tx.vout.any fun output =>
    output.scriptpubkeyType == some "op_return" ||
    output.scriptPubKeyType == some "nulldata" ||
    (match output.scriptpubkeyAsm with
     | some asm => strStarts asm "OP_RETURN"
     | none => false) ||
    (match output.scriptPubKeyAsm with
     | some asm => strStarts asm "OP_RETURN"
     | none => false) ||
    (match output.scriptPubKeyHex with
     | some hex => strStarts hex "6a"
     | none => false)

/-- `isDieselMintTransaction(tx)` (dieselMonitor.js:580): some output is an
OP_RETURN (by type tag or a hex dump starting with `6a`) whose hex data
contains the DIESEL signature run. -/
def isDieselMintTransaction (tx : Tx) : Bool :=
  tx.vout.any fun vout =>
    let hexData := jsOrStr vout.scriptPubKeyHex (jsOrStr vout.scriptpubkey "")
    let isOpRet :=
      vout.scriptPubKeyType == some "nulldata" ||
      vout.scriptpubkeyType == some "op_return" ||
      strStarts hexData "6a"
    isOpRet && strContains hexData dieselPattern

/-- `extractSender(tx)` (dieselMonitor.js:564): the first input's prevout
address (`address || 'unknown'`, an empty string being falsy), else
"unknown". -/
def extractSender (tx : Tx) : String :=
  match tx.vin with
  | vin0 :: _ => jsOrStr vin0.prevoutAddress "unknown"
  | [] => "unknown"

/-- The contribution of one input to the input sum in `calculateFeeRate`:
the source guards with `if (vin.prevout && vin.prevout.value)`, so an
unresolvable prevout — and a zero-valued one, `0` being falsy — adds nothing. -/
def inputContribution (vin : TxIn) : ℚ :=
  match vin.prevoutValue with
  | some v => if v = 0 then 0 else v
  | none => 0

/-- The contribution of one output to the output sum in `calculateFeeRate`
(`if (vout.value)`: a zero value is skipped, adding nothing either way). -/
def outputContribution (vout : TxOut) : ℚ :=
  if vout.value = 0 then 0 else vout.value

/-- The fee computed by `calculateFeeRate`, line 524: input sum minus output
sum, unresolvable inputs contributing zero. -/
def feeOf (tx : Tx) : ℚ :=
  (tx.vin.map inputContribution).sum - (tx.vout.map outputContribution).sum

/-- `tx.vsize || tx.size || (tx.weight ? Math.ceil(tx.weight / 4) : 0)`
(dieselMonitor.js:527). -/
def resolvedVsize (tx : Tx) : Nat :=
  jsOrNat tx.vsize (jsOrNat tx.size (if tx.weight ≠ 0 then (tx.weight + 3) / 4 else 0))

/-- `calculateFeeRate(tx)` (dieselMonitor.js:505): `none` models the `null`
returned when the size is unavailable or the computed rate is non-positive. -/
def calculateFeeRate (tx : Tx) : Option ℚ :=
  let fee := feeOf tx
  let vsize := resolvedVsize tx
  if vsize = 0 then none
  else
    let feeRate := fee * 100000000 / (vsize : ℚ)
    if feeRate ≤ 0 then none else some feeRate

/-- A recorded mint (the `mintInfo` objects built at dieselMonitor.js:157 for
blocks and :411 for the mempool; fields absent from one shape are `Option` /
defaulted). -/
structure MintInfo where
  txid : String
  feeRate : ℚ
  sender : String
  timestamp : Int
  blockHeight : Option Nat := none
  blockTime : Option Int := none
  inMempool : Bool := false
  deriving Repr, DecidableEq

/-- The `highestGasRate` record (dieselMonitor.js:21): `blockHeight` is set by
the block-winner update, `sender` by the mempool update. -/
structure HighestGasRate where
  txid : Option String
  feeRate : ℚ
  sender : Option String := none
  blockHeight : Option Nat := none
  timestamp : Option Int := none
  deriving Repr, DecidableEq

/-- The mutable fields of the `DieselMonitor` instance that the scan cycles
read and write. -/
structure MonitorState where
  currentBlockHeight : Nat
  dieselMintTransactions : List MintInfo
  pendingMintTransactions : List (String × MintInfo)
  highestGasRate : HighestGasRate
  processedTxids : List String
  lastScanTime : Int
  deriving Repr, DecidableEq

/-- The constructor state (dieselMonitor.js:7). -/
def initialState : MonitorState where
  currentBlockHeight := 0
  dieselMintTransactions := []
  pendingMintTransactions := []
  highestGasRate := { txid := none, feeRate := 0 }
  processedTxids := []
  lastScanTime := 0

/-- JS `Map.prototype.set`: update in place when the key exists, else append
(insertion order preserved). -/
def mapSet (m : List (String × MintInfo)) (k : String) (v : MintInfo) :
    List (String × MintInfo) :=
  if m.any (fun kv => kv.1 = k) then
    m.map (fun kv => if kv.1 = k then (k, v) else kv)
  else m ++ [(k, v)]

/-- JS `Set.prototype.add`: append when absent. -/
def setAdd (s : List String) (x : String) : List String :=
  if x ∈ s then s else s ++ [x]

/-- A block as returned by `getBlock(hash, 2)`: the fields `processBlock`
reads. -/
structure Block where
  hash : String
  time : Int
  tx : List Tx
  deriving Repr

/-- `addDieselMintTransaction(mintInfo)` (dieselMonitor.js:732): push, then
keep only the newest `maxHistoryRecords` entries when over the limit
(`slice(-n)` for the positive constant `n = 50` keeps the last `n`). -/
def addDieselMintTransaction (history : List MintInfo) (mintInfo : MintInfo) :
    List MintInfo :=
  let h := history ++ [mintInfo]
  if maxHistoryRecords < h.length then h.drop (h.length - maxHistoryRecords) else h

/-- `findWinningTransaction(mintTransactions)` (dieselMonitor.js:749): `null`
on an empty list, else the first transaction whose feeRate exceeds 1, `null`
when none does. -/
def findWinningTransaction (mintTransactions : List MintInfo) : Option MintInfo :=
  if mintTransactions.isEmpty then none
  else
    let validTransactions := mintTransactions.filter (fun t => 1 < t.feeRate)
    if validTransactions.isEmpty then none else validTransactions.head?

/-- `clearConfirmedMempoolTransactions(confirmedTxids)` (dieselMonitor.js:492):
delete every confirmed txid from the pending map. -/
def clearConfirmedMempoolTransactions (pending : List (String × MintInfo))
    (confirmedTxids : List String) : List (String × MintInfo) :=
  confirmedTxids.foldl (fun m txid => m.filter (fun kv => kv.1 ≠ txid)) pending

/-- One iteration of the transaction loop of `processBlock`
(dieselMonitor.js:142): the `mintInfo` record pushed onto `blockDieselMints`
for a classified transaction with a non-null fee rate, `none` otherwise. -/
def candidateOf (height : Nat) (blockTime : Int) (now : Int) (tx : Tx) :
    Option MintInfo :=
  if isDieselMintTransaction tx then
    match calculateFeeRate tx with
    | none => none
    | some feeRate =>
      some { txid := tx.txid, feeRate := feeRate, sender := extractSender tx,
             timestamp := now, blockHeight := some height,
             blockTime := some blockTime }
  else none

/-- The `blockDieselMints` list built by the transaction loop of
`processBlock` (dieselMonitor.js:142): classified transactions in block
order, skipping those whose fee rate is `null`. -/
def blockCandidates (height : Nat) (blockTime : Int) (now : Int)
    (txs : List Tx) : List MintInfo :=
  txs.filterMap (candidateOf height blockTime now)

/-- The winner `processBlock` reports for a block's transactions (lines
182-184; `findWinningTransaction` is only invoked on a non-empty candidate
list there, but it returns `null` on an empty one, so the guard is
redundant). -/
def blockWinner (height : Nat) (blockTime : Int) (now : Int)
    (txs : List Tx) : Option MintInfo :=
  findWinningTransaction (blockCandidates height blockTime now txs)

/-- `processBlock(height)` (dieselMonitor.js:126).  `fetch` is the combined
result of `getBlockHash`/`getBlock`: `none` models a throw, which the
`catch` at line 208 swallows, leaving the state unchanged.  On success:
confirmed txids are removed from the pending map, each candidate is appended
to the history, and the winner updates `highestGasRate` when it strictly
exceeds the current record. -/
def processBlock (s : MonitorState) (height : Nat) (fetch : Option Block)
    (now : Int) : MonitorState :=
  match fetch with
  | none => s
  | some block =>
    let s1 := { s with
      pendingMintTransactions :=
        clearConfirmedMempoolTransactions s.pendingMintTransactions
          (block.tx.map Tx.txid) }
    let mints := blockCandidates height block.time now block.tx
    let s2 := { s1 with
      dieselMintTransactions := mints.foldl addDieselMintTransaction
        s1.dieselMintTransactions }
    match findWinningTransaction mints with
    | some w =>
      if s2.highestGasRate.feeRate < w.feeRate then
        { s2 with highestGasRate :=
            { txid := some w.txid, feeRate := w.feeRate,
              blockHeight := some height, timestamp := some now } }
      else s2
    | none => s2

/-- The body of the height loop of `scanNewBlocks` (dieselMonitor.js:109):
process each height from `first` for `count` steps, set
`currentBlockHeight` to it, then clear the pending map and the processed
set. -/
def scanHeights (fetch : Nat → Option Block) (now : Int) :
    Nat → Nat → MonitorState → MonitorState
  | _, 0, s => s
  | first, count + 1, s =>
    let s1 := processBlock s first (fetch first) now
    let s2 := { s1 with currentBlockHeight := first,
                        pendingMintTransactions := [],
                        processedTxids := [] }
    scanHeights fetch now (first + 1) count s2

/-- `scanNewBlocks()` (dieselMonitor.js:97).  `latest` is the
`getBlockCount` result, `none` modelling a throw (caught at line 117,
leaving the state unchanged); otherwise every height from
`currentBlockHeight + 1` to `latest` is processed in order. -/
def scanNewBlocks (s : MonitorState) (latest : Option Nat)
    (fetch : Nat → Option Block) (now : Int) : MonitorState :=
  match latest with
  | none => s
  | some latestBlockHeight =>
    if latestBlockHeight ≤ s.currentBlockHeight then s
    else scanHeights fetch now (s.currentBlockHeight + 1)
      (latestBlockHeight - s.currentBlockHeight) s

/-- One entry of the verbose mempool snapshot (`getRawMempool(true)`):
`fees` is `fees.base` in BTC when the `fees` object is present, the sizes are
`0` when unreported. -/
structure MempoolEntry where
  fees : Option ℚ := none
  vsize : Nat := 0
  size : Nat := 0
  weight : Nat := 0
  deriving Repr, DecidableEq

/-- The approximate fee rate the mempool prefilter computes from a snapshot
entry (dieselMonitor.js:300):
`(fees.base * 100000000) / (vsize || size)`. -/
def approxFeeRate (e : MempoolEntry) : ℚ :=
  (match e.fees with | some base => base | none => 0) * 100000000
    / ((jsOrNat e.vsize e.size : Nat) : ℚ)

/-- One element of the `highFeeRateTxs` list (dieselMonitor.js:303). -/
structure HighFeeTx where
  txid : String
  feeRate : ℚ
  weight : Nat
  size : Nat
  deriving Repr, DecidableEq

/-- The prefilter loop of `scanMempool` (dieselMonitor.js:298): keep snapshot
entries not yet processed whose `fees` object is present and whose
approximate rate reaches `MIN_FEE_RATE = 10`. -/
def highFeeRateTxs (processed : List String)
    (mempool : List (String × MempoolEntry)) : List HighFeeTx :=
  mempool.filterMap fun kv =>
    let txid := kv.1
    let e := kv.2
    if txid ∉ processed ∧ e.fees.isSome then
      let feeRateSats := approxFeeRate e
      if 10 ≤ feeRateSats then
        some { txid := txid, feeRate := feeRateSats,
               weight := jsOrNat e.weight (e.vsize * 4),
               size := jsOrNat e.size e.vsize }
      else none
    else none

/-- Descending insertion by fee rate, used to model
`highFeeRateTxs.sort((a, b) => b.feeRate - a.feeRate)`. -/
def insertByFeeRate (t : HighFeeTx) : List HighFeeTx → List HighFeeTx
  | [] => [t]
  | x :: xs => if x.feeRate < t.feeRate then t :: x :: xs else x :: insertByFeeRate t xs

/-- `highFeeRateTxs` sorted by fee rate, highest first (dieselMonitor.js:324). -/
def sortByFeeRateDesc (l : List HighFeeTx) : List HighFeeTx :=
  l.foldr insertByFeeRate []

/-- The `txDetailsMap` built by the batch loop (dieselMonitor.js:338-393):
each prefiltered txid that was successfully fetched, paired with its full
transaction and the approximate rate carried over from the snapshot
(`feeRate: originalTx.feeRate`, line 357). -/
def txDetailsMap (fetchTx : String → Option Tx) (l : List HighFeeTx) :
    List (String × Tx × ℚ) :=
  l.filterMap fun t =>
    match fetchTx t.txid with
    | some tx => some (t.txid, tx, t.feeRate)
    | none => none

/-- `updateHighestGasRate(txid, feeRate, sender)` (dieselMonitor.js:807):
replace the record only when the new rate strictly exceeds it. -/
def updateHighestGasRate (hg : HighestGasRate) (txid : String) (feeRate : ℚ)
    (sender : String) (now : Int) : HighestGasRate :=
  if hg.feeRate < feeRate then
    { txid := some txid, feeRate := feeRate, sender := some sender,
      timestamp := some now }
  else hg

/-- The body of the classification loop of `scanMempool`
(dieselMonitor.js:403-435) for one `txDetailsMap` entry: on an OP_RETURN
DIESEL candidate, upsert the pending entry (with the approximate snapshot
rate) and run `updateHighestGasRate`; in every case mark the txid
processed. -/
def processMempoolEntry (now : Int) (s : MonitorState)
    (entry : String × Tx × ℚ) : MonitorState :=
  let txid := entry.1
  let tx := entry.2.1
  let feeRate := entry.2.2
  let s1 :=
    if hasOpReturn tx ∧ isDieselMintTransaction tx then
      let mintInfo : MintInfo :=
        { txid := txid, feeRate := feeRate, sender := extractSender tx,
          timestamp := now, inMempool := true }
      let s' := { s with
        pendingMintTransactions := mapSet s.pendingMintTransactions txid mintInfo }
      { s' with
        highestGasRate :=
          updateHighestGasRate s'.highestGasRate txid feeRate mintInfo.sender now }
    else s
  { s1 with processedTxids := setAdd s1.processedTxids txid }

/-- The timestamp used by the processed-set sweep: the pending entry's
timestamp when there is one, else `0`
(`this.pendingMintTransactions.get(txid)?.timestamp || 0`). -/
def pendingTimestampOrZero (pending : List (String × MintInfo))
    (txid : String) : Int :=
  match List.lookup txid pending with
  | some info => info.timestamp
  | none => 0

/-- `scanMempool()` (dieselMonitor.js:266).  `mempool` is the
`getRawMempool(true)` result, `none` modelling a throw (handled at line 272,
leaving the state unchanged).  After the early exits for an empty snapshot
and an empty prefilter result, the classification loop runs over the fetched
details, then the processed set drops txids absent from the snapshot or whose
pending timestamp is older than 24 hours, and `lastScanTime` is updated.
The pending map is never purged here: `cleanupMempoolTransactions` exists in
the source (line 478) but is not invoked by this version of `scanMempool`. -/
def scanMempool (s : MonitorState)
    (mempool : Option (List (String × MempoolEntry)))
    (fetchTx : String → Option Tx) (now : Int) : MonitorState :=
  match mempool with
  | none => s
  | some snapshot =>
    if snapshot.isEmpty then s
    else
      let hf := highFeeRateTxs s.processedTxids snapshot
      if hf.isEmpty then s
      else
        let details := txDetailsMap fetchTx (sortByFeeRateDesc hf)
        let s1 := details.foldl (processMempoolEntry now) s
        let expireTime : Int := now - 24 * 60 * 60 * 1000
        let s2 := { s1 with processedTxids :=
            s1.processedTxids.filter fun txid =>
              ¬ ((List.lookup txid snapshot).isNone ∨
                 pendingTimestampOrZero s1.pendingMintTransactions txid < expireTime) }
        { s2 with lastScanTime := now }

/-- `cleanupMempoolTransactions(currentTxids)` (dieselMonitor.js:478): drop
pending entries whose txid is not in the given list.  Defined in the source
but never called by it (an earlier revision invoked it from `scanMempool`). -/
def cleanupMempoolTransactions (pending : List (String × MintInfo))
    (currentTxids : List String) : List (String × MintInfo) :=
  pending.filter (fun kv => kv.1 ∈ currentTxids)

/-- One scheduled cycle of the monitor: a block scan or a mempool scan, with
the RPC responses it observed. -/
inductive MonitorOp where
  | blockScan (latest : Option Nat) (fetch : Nat → Option Block) (now : Int)
  | mempoolScan (mempool : Option (List (String × MempoolEntry)))
      (fetchTx : String → Option Tx) (now : Int)

/-- Apply one cycle to the monitor state. -/
def applyOp (s : MonitorState) : MonitorOp → MonitorState
  | .blockScan latest fetch now => scanNewBlocks s latest fetch now
  | .mempoolScan mempool fetchTx now => scanMempool s mempool fetchTx now

/-- A process lifetime: the cycles applied in order from a starting state. -/
def runOps (s : MonitorState) (ops : List MonitorOp) : MonitorState :=
  ops.foldl applyOp s

/-- A transaction with unresolvable (and JS-falsy zero-valued) inputs removed:
exactly the inputs that the guard `if (vin.prevout && vin.prevout.value)` of
`calculateFeeRate` skips. -/
def resolvedInputs (tx : Tx) : Tx :=
  { tx with vin := tx.vin.filter (fun i => i.prevoutValue.getD 0 != 0) }

/-! ### Concrete scenario A: a mempool DIESEL mint candidate

A snapshot with one transaction `"t1"` whose approximate snapshot rate is
`20 sat/vB` (`fees.base = 1/50000 BTC`, `vsize = 100`) but whose precise rate
from the full transaction is `1000000 sat/vB` (one resolved input of 1 BTC, a
single zero-valued OP_RETURN output carrying the DIESEL signature). -/

/-- Scenario A: the full transaction behind txid `"t1"`. -/
def mintTxA : Tx :=
  { txid := "t1",
    vin := [{ prevoutValue := some 1, prevoutAddress := some "addrA" }],
    vout := [{ value := 0, scriptPubKeyHex := some "6a02ff7f818cec82d08bc0a88281d21500" }],
    vsize := 100 }

/-- Scenario A: the mempool snapshot entry for `"t1"`. -/
def entryA : MempoolEntry := { fees := some (1/50000), vsize := 100 }

/-- Scenario A: the mempool snapshot. -/
def snapA : List (String × MempoolEntry) := [("t1", entryA)]

/-- Scenario A: the batch-fetch oracle (fetching `"t1"` succeeds). -/
def fetchA : String → Option Tx := fun t => if t = "t1" then some mintTxA else none

/-- Scenario A: the prefilter survivor for `"t1"`. -/
def hftA : HighFeeTx := { txid := "t1", feeRate := 20, weight := 400, size := 100 }

/-- Scenario A: the pending entry `scanMempool` records for `"t1"`. -/
def infoA : MintInfo :=
  { txid := "t1", feeRate := 20, sender := "addrA", timestamp := 0, inMempool := true }

/-- Scenario A: the state after one `scanMempool` cycle from the initial
state. -/
def scanAState : MonitorState :=
  { currentBlockHeight := 0, dieselMintTransactions := [],
    pendingMintTransactions := [("t1", infoA)],
    highestGasRate := { txid := some "t1", feeRate := 20, sender := some "addrA",
                        timestamp := some 0 },
    processedTxids := ["t1"], lastScanTime := 0 }

/-! ### Concrete scenario B: a stale pending entry across a mempool scan

The monitor starts with a pending entry `"a"`; the next snapshot no longer
contains `"a"` but contains an unrelated high-fee non-mint transaction `"b"`,
so the scan runs to completion. -/

/-- Scenario B: the stale pending entry for txid `"a"`. -/
def staleInfoB : MintInfo :=
  { txid := "a", feeRate := 5, sender := "addrB", timestamp := 0, inMempool := true }

/-- Scenario B: the starting state, holding the stale pending entry. -/
def stateB : MonitorState :=
  { initialState with pendingMintTransactions := [("a", staleInfoB)] }

/-- Scenario B: the full transaction behind `"b"` (not a mint candidate). -/
def plainTxB : Tx := { txid := "b", vout := [{ value := 2 }], vsize := 100 }

/-- Scenario B: the mempool snapshot entry for `"b"`. -/
def entryB : MempoolEntry := { fees := some (1/50000), vsize := 100 }

/-- Scenario B: the mempool snapshot, not containing `"a"`. -/
def snapB : List (String × MempoolEntry) := [("b", entryB)]

/-- Scenario B: the prefilter survivor for `"b"`. -/
def hftB : HighFeeTx := { txid := "b", feeRate := 20, weight := 400, size := 100 }

/-- Scenario B: the batch-fetch oracle (fetching `"b"` succeeds). -/
def fetchB : String → Option Tx := fun t => if t = "b" then some plainTxB else none

/-- Scenario B: the state after one `scanMempool` cycle from `stateB`: the
stale entry `"a"` is still pending. -/
def scanBState : MonitorState :=
  { currentBlockHeight := 0, dieselMintTransactions := [],
    pendingMintTransactions := [("a", staleInfoB)],
    highestGasRate := { txid := none, feeRate := 0 },
    processedTxids := ["b"], lastScanTime := 0 }

/-- A transaction with one resolved input (10) and one unresolvable input,
and a single output (3): `calculateFeeRate` treats the unresolvable input as
zero and computes a rate from fee 7. -/
def unresolvedInputTx : Tx :=
  { txid := "x",
    vin := [{ prevoutValue := some 10 }, { prevoutValue := none }],
    vout := [{ value := 3 }],
    vsize := 1 }

/-- A transaction whose outputs exceed its (resolvable) inputs: fee is -5. -/
def negativeFeeTx : Tx :=
  { txid := "y", vin := [], vout := [{ value := 5 }], vsize := 10 }

/-! ## Theorems -/

/-- The head of a filtered list is the first element satisfying the
predicate. -/
theorem head?_filter_eq_find? {α : Type} (p : α → Bool) :
    ∀ l : List α, (l.filter p).head? = l.find? p := by
  intro l
  induction l with
  | nil => rfl
  | cons a t ih =>
    by_cases h : p a
    · simp [List.filter_cons, List.find?_cons, h]
    · simp only [List.filter_cons, List.find?_cons]
      rw [if_neg h]
      cases hpa : p a with
      | true => exact absurd hpa h
      | false => exact ih

/-- `findWinningTransaction` returns the first list element whose fee rate
exceeds 1 (the two `isEmpty` early returns coincide with `find?` on those
lists). -/
theorem findWinningTransaction_eq_find? (l : List MintInfo) :
    findWinningTransaction l = l.find? (fun t => decide ((1:ℚ) < t.feeRate)) := by
  rw [← head?_filter_eq_find?]
  unfold findWinningTransaction
  rcases l with _ | ⟨a, t⟩
  · rfl
  · rw [if_neg (by simp)]
    by_cases h : ((a :: t).filter (fun t => decide ((1:ℚ) < t.feeRate))).isEmpty
    · rw [if_pos h]
      rw [List.isEmpty_iff] at h
      rw [h]
      rfl
    · rw [if_neg h]

/-- C1. In `processBlock`, the winner of a block is the first candidate, in
block position order, whose (valid, non-null) fee rate strictly exceeds the
floor of 1 sat/vB — independently of any later candidate's higher fee rate —
and when no candidate exceeds the floor, no winner is selected (`find?`
returns `none` exactly then). -/
theorem blockWinner_is_first_valid_candidate (height : Nat) (blockTime now : Int)
    (txs : List Tx) :
    blockWinner height blockTime now txs =
      (blockCandidates height blockTime now txs).find?
        (fun t => decide ((1:ℚ) < t.feeRate)) :=
  findWinningTransaction_eq_find? _

/-- One step's effect on the highest-gas record: either untouched, or
replaced by a strictly larger fee rate. -/
def HgStep (s s' : MonitorState) : Prop :=
  s'.highestGasRate = s.highestGasRate ∨
    s.highestGasRate.feeRate < s'.highestGasRate.feeRate

theorem hgStep_refl (s : MonitorState) : HgStep s s := Or.inl rfl

theorem hgStep_trans {s t u : MonitorState} (h1 : HgStep s t) (h2 : HgStep t u) :
    HgStep s u := by
  rcases h1 with h1 | h1 <;> rcases h2 with h2 | h2
  · exact Or.inl (h2.trans h1)
  · exact Or.inr (by rw [h1] at h2; exact h2)
  · exact Or.inr (by rw [h2]; exact h1)
  · exact Or.inr (h1.trans h2)

theorem hgStep_le {s s' : MonitorState} (h : HgStep s s') :
    s.highestGasRate.feeRate ≤ s'.highestGasRate.feeRate := by
  rcases h with h | h
  · rw [h]
  · exact le_of_lt h

theorem updateHighestGasRate_cases (hg : HighestGasRate) (txid : String)
    (feeRate : ℚ) (sender : String) (now : Int) :
    updateHighestGasRate hg txid feeRate sender now = hg ∨
      hg.feeRate < (updateHighestGasRate hg txid feeRate sender now).feeRate := by
  unfold updateHighestGasRate
  split
  · next h => exact Or.inr h
  · exact Or.inl rfl

theorem processMempoolEntry_highestGasRate (now : Int) (s : MonitorState)
    (e : String × Tx × ℚ) :
    (processMempoolEntry now s e).highestGasRate =
      if hasOpReturn e.2.1 = true ∧ isDieselMintTransaction e.2.1 = true then
        updateHighestGasRate s.highestGasRate e.1 e.2.2 (extractSender e.2.1) now
      else s.highestGasRate := by
  simp only [processMempoolEntry]
  by_cases h : hasOpReturn e.2.1 = true ∧ isDieselMintTransaction e.2.1 = true
  · rw [if_pos h, if_pos h]
  · rw [if_neg h, if_neg h]

theorem processMempoolEntry_hgStep (now : Int) (s : MonitorState)
    (e : String × Tx × ℚ) : HgStep s (processMempoolEntry now s e) := by
  unfold HgStep
  rw [processMempoolEntry_highestGasRate]
  by_cases h : hasOpReturn e.2.1 = true ∧ isDieselMintTransaction e.2.1 = true
  · rw [if_pos h]
    exact updateHighestGasRate_cases s.highestGasRate e.1 e.2.2 (extractSender e.2.1) now
  · rw [if_neg h]
    exact Or.inl rfl

theorem foldl_processMempoolEntry_hgStep (now : Int) :
    ∀ (l : List (String × Tx × ℚ)) (s : MonitorState),
      HgStep s (l.foldl (processMempoolEntry now) s) := by
  intro l
  induction l with
  | nil => intro s; exact hgStep_refl s
  | cons e t ih =>
    intro s
    exact hgStep_trans (processMempoolEntry_hgStep now s e) (ih _)

theorem scanMempool_hgStep (s : MonitorState)
    (m : Option (List (String × MempoolEntry))) (f : String → Option Tx)
    (now : Int) : HgStep s (scanMempool s m f now) := by
  cases m with
  | none => exact hgStep_refl s
  | some snapshot =>
    simp only [scanMempool]
    by_cases h1 : snapshot.isEmpty = true
    · rw [if_pos h1]; exact hgStep_refl s
    · rw [if_neg h1]
      by_cases h2 : (highFeeRateTxs s.processedTxids snapshot).isEmpty = true
      · rw [if_pos h2]; exact hgStep_refl s
      · rw [if_neg h2]
        exact foldl_processMempoolEntry_hgStep now _ s

theorem processBlock_hgStep (s : MonitorState) (height : Nat)
    (fetch : Option Block) (now : Int) : HgStep s (processBlock s height fetch now) := by
  cases fetch with
  | none => exact hgStep_refl s
  | some block =>
    simp only [processBlock]
    cases hw : findWinningTransaction (blockCandidates height block.time now block.tx) with
    | none => exact Or.inl rfl
    | some w =>
      dsimp only
      by_cases h : s.highestGasRate.feeRate < w.feeRate
      · rw [if_pos h]
        exact Or.inr h
      · rw [if_neg h]
        exact Or.inl rfl

theorem scanHeights_hgStep (f : Nat → Option Block) (now : Int) :
    ∀ (count first : Nat) (s : MonitorState),
      HgStep s (scanHeights f now first count s) := by
  intro count
  induction count with
  | zero => intro first s; exact hgStep_refl s
  | succ k ih =>
    intro first s
    exact hgStep_trans (processBlock_hgStep s first (f first) now) (ih _ _)

theorem scanNewBlocks_hgStep (s : MonitorState) (latest : Option Nat)
    (f : Nat → Option Block) (now : Int) :
    HgStep s (scanNewBlocks s latest f now) := by
  cases latest with
  | none => exact hgStep_refl s
  | some latestBlockHeight =>
    simp only [scanNewBlocks]
    by_cases h : latestBlockHeight ≤ s.currentBlockHeight
    · rw [if_pos h]; exact hgStep_refl s
    · rw [if_neg h]; exact scanHeights_hgStep f now _ _ s

theorem applyOp_hgStep (s : MonitorState) (op : MonitorOp) :
    HgStep s (applyOp s op) := by
  cases op with
  | blockScan latest fetch now => exact scanNewBlocks_hgStep s latest fetch now
  | mempoolScan m f now => exact scanMempool_hgStep s m f now

theorem runOps_hgStep (ops : List MonitorOp) :
    ∀ s : MonitorState, HgStep s (runOps s ops) := by
  induction ops with
  | nil => intro s; exact hgStep_refl s
  | cons op t ih =>
    intro s
    exact hgStep_trans (applyOp_hgStep s op) (ih _)

/-- C3. Across any sequence of block-scan and mempool-scan cycles, the stored
`highestGasRate.feeRate` is monotonically non-decreasing: no cycle ever
replaces it with a strictly smaller value. -/
theorem highestGasRate_feeRate_monotone (s : MonitorState) (ops : List MonitorOp) :
    s.highestGasRate.feeRate ≤ (runOps s ops).highestGasRate.feeRate :=
  hgStep_le (runOps_hgStep ops s)

/-- C4 (amended). Any single monitor cycle either leaves the `highestGasRate`
record untouched or replaces it with a record of strictly larger fee rate —
but the update sites include the mempool scan (`updateHighestGasRate` called
from `scanMempool`), not only confirmed block winners. -/
theorem highestGasRate_replaced_only_on_strict_excess (s : MonitorState)
    (op : MonitorOp) :
    (applyOp s op).highestGasRate = s.highestGasRate ∨
      s.highestGasRate.feeRate < (applyOp s op).highestGasRate.feeRate :=
  applyOp_hgStep s op

theorem inputContribution_eq_zero_of_unusable (i : TxIn)
    (h : ¬ (i.prevoutValue.getD 0 != 0) = true) : inputContribution i = 0 := by
  unfold inputContribution
  cases hv : i.prevoutValue with
  | none => rfl
  | some v =>
    rw [hv] at h
    simp only [Option.getD_some, bne_iff_ne, ne_eq, not_not] at h
    dsimp only
    rw [if_pos h]

theorem inputSum_filter_usable (vin : List TxIn) :
    ((vin.filter (fun i => i.prevoutValue.getD 0 != 0)).map inputContribution).sum =
      (vin.map inputContribution).sum := by
  induction vin with
  | nil => rfl
  | cons i t ih =>
    by_cases h : (i.prevoutValue.getD 0 != 0) = true
    · simp [List.filter_cons, h, ih]
    · simp [List.filter_cons, h, ih, inputContribution_eq_zero_of_unusable i h]

theorem feeOf_resolvedInputs (tx : Tx) : feeOf (resolvedInputs tx) = feeOf tx := by
  unfold feeOf resolvedInputs
  simp only
  rw [inputSum_filter_usable]

/-- C5 (amended). `calculateFeeRate` treats an input whose previous-output
value cannot be resolved (and a JS-falsy zero-valued one) as contributing
zero to the input sum: removing those inputs never changes the result.  The
result is `null` only when the size resolves to 0 or the computed rate is
non-positive, not merely because some input was unresolvable. -/
theorem unresolvable_inputs_contribute_zero (tx : Tx) :
    calculateFeeRate (resolvedInputs tx) = calculateFeeRate tx := by
  unfold calculateFeeRate
  rw [feeOf_resolvedInputs]
  rfl

/-- C5 (counterexample).  `unresolvedInputTx` has an input whose
previous-output value cannot be resolved (`prevoutValue = none`), yet
`calculateFeeRate` does not return the Unavailable sentinel: it computes the
rate as if that input contributed zero (fee 10 - 3 = 7 over vsize 1),
contradicting the claim that any unresolvable input forces `null`. -/
theorem unresolvable_input_rate_not_unavailable :
    ((unresolvedInputTx.vin.map TxIn.prevoutValue).contains none = true) ∧
      calculateFeeRate unresolvedInputTx = some 700000000 := by
  constructor
  · decide
  · norm_num [calculateFeeRate, feeOf, inputContribution, outputContribution,
      resolvedVsize, jsOrNat, unresolvedInputTx]

theorem candidateOf_eq_none_of_rate_none (height : Nat) (blockTime now : Int)
    (tx : Tx) (h : calculateFeeRate tx = none) :
    candidateOf height blockTime now tx = none := by
  unfold candidateOf
  rw [h]
  by_cases hd : isDieselMintTransaction tx = true
  · rw [if_pos hd]
  · rw [if_neg hd]

/-- C6. A transaction whose resolved vsize is `0` or whose computed fee
(inputs minus outputs) is `≤ 0` gets the Unavailable rate (`null`) from
`calculateFeeRate` — never a non-positive rate — and contributes nothing to
a block's candidate list, hence is excluded from winner selection. -/
theorem nonpositive_fee_or_zero_vsize_excluded (tx : Tx)
    (h : resolvedVsize tx = 0 ∨ feeOf tx ≤ 0) :
    calculateFeeRate tx = none ∧
      ∀ (height : Nat) (blockTime now : Int) (pre post : List Tx),
        blockCandidates height blockTime now (pre ++ tx :: post) =
          blockCandidates height blockTime now (pre ++ post) := by
  have hnone : calculateFeeRate tx = none := by
    unfold calculateFeeRate
    rcases h with hv | hf
    · rw [if_pos hv]
    · by_cases hv : resolvedVsize tx = 0
      · rw [if_pos hv]
      · rw [if_neg hv]
        have h1 : feeOf tx * 100000000 ≤ 0 :=
          mul_nonpos_iff.mpr (Or.inr ⟨hf, by norm_num⟩)
        have hb : (0:ℚ) ≤ (resolvedVsize tx : ℚ) := by positivity
        have h2 : feeOf tx * 100000000 / (resolvedVsize tx : ℚ) ≤ 0 :=
          div_nonpos_of_nonpos_of_nonneg h1 hb
        rw [if_pos h2]
  refine ⟨hnone, ?_⟩
  intro height blockTime now pre post
  unfold blockCandidates
  rw [List.filterMap_append, List.filterMap_append, List.filterMap_cons,
    candidateOf_eq_none_of_rate_none height blockTime now tx hnone]

/-- C6 (witness): the concrete transaction `negativeFeeTx` has fee `-5 ≤ 0`;
its rate is `null` and it is dropped from a singleton block's candidate
list. -/
theorem nonpositive_fee_or_zero_vsize_excluded_witness :
    (feeOf negativeFeeTx ≤ 0) ∧
      calculateFeeRate negativeFeeTx = none ∧
      blockCandidates 1 0 0 [negativeFeeTx] = blockCandidates 1 0 0 [] := by
  have hfee : feeOf negativeFeeTx ≤ 0 := by
    norm_num [feeOf, negativeFeeTx, inputContribution, outputContribution]
  refine ⟨hfee, (nonpositive_fee_or_zero_vsize_excluded negativeFeeTx (Or.inr hfee)).1, ?_⟩
  exact (nonpositive_fee_or_zero_vsize_excluded negativeFeeTx (Or.inr hfee)).2 1 0 0 [] []

theorem addDieselMintTransaction_length_le (l : List MintInfo) (m : MintInfo)
    (h : l.length ≤ maxHistoryRecords) :
    (addDieselMintTransaction l m).length ≤ maxHistoryRecords := by
  simp only [addDieselMintTransaction]
  by_cases hc : maxHistoryRecords < (l ++ [m]).length
  · rw [if_pos hc, List.length_drop]
    omega
  · rw [if_neg hc]
    omega

theorem foldl_addDieselMintTransaction_length_le (mints : List MintInfo) :
    ∀ l : List MintInfo, l.length ≤ maxHistoryRecords →
      (mints.foldl addDieselMintTransaction l).length ≤ maxHistoryRecords := by
  induction mints with
  | nil => intro l h; exact h
  | cons m t ih =>
    intro l h
    exact ih _ (addDieselMintTransaction_length_le l m h)

theorem processMempoolEntry_dieselMintTransactions (now : Int)
    (s : MonitorState) (e : String × Tx × ℚ) :
    (processMempoolEntry now s e).dieselMintTransactions =
      s.dieselMintTransactions := by
  simp only [processMempoolEntry]
  split <;> rfl

theorem foldl_processMempoolEntry_dieselMintTransactions (now : Int) :
    ∀ (l : List (String × Tx × ℚ)) (s : MonitorState),
      (l.foldl (processMempoolEntry now) s).dieselMintTransactions =
        s.dieselMintTransactions := by
  intro l
  induction l with
  | nil => intro s; rfl
  | cons e t ih =>
    intro s
    rw [List.foldl_cons, ih, processMempoolEntry_dieselMintTransactions]

theorem scanMempool_dieselMintTransactions (s : MonitorState)
    (m : Option (List (String × MempoolEntry))) (f : String → Option Tx)
    (now : Int) :
    (scanMempool s m f now).dieselMintTransactions = s.dieselMintTransactions := by
  cases m with
  | none => rfl
  | some snapshot =>
    simp only [scanMempool]
    by_cases h1 : snapshot.isEmpty = true
    · rw [if_pos h1]
    · rw [if_neg h1]
      by_cases h2 : (highFeeRateTxs s.processedTxids snapshot).isEmpty = true
      · rw [if_pos h2]
      · rw [if_neg h2]
        exact foldl_processMempoolEntry_dieselMintTransactions now _ s

theorem processBlock_history_le (s : MonitorState) (height : Nat)
    (fetch : Option Block) (now : Int)
    (h : s.dieselMintTransactions.length ≤ maxHistoryRecords) :
    (processBlock s height fetch now).dieselMintTransactions.length ≤
      maxHistoryRecords := by
  cases fetch with
  | none => exact h
  | some block =>
    simp only [processBlock]
    cases hw : findWinningTransaction (blockCandidates height block.time now block.tx) with
    | none => exact foldl_addDieselMintTransaction_length_le _ _ h
    | some w =>
      dsimp only
      by_cases hlt : s.highestGasRate.feeRate < w.feeRate
      · rw [if_pos hlt]
        exact foldl_addDieselMintTransaction_length_le _ _ h
      · rw [if_neg hlt]
        exact foldl_addDieselMintTransaction_length_le _ _ h

theorem scanHeights_history_le (f : Nat → Option Block) (now : Int) :
    ∀ (count first : Nat) (s : MonitorState),
      s.dieselMintTransactions.length ≤ maxHistoryRecords →
      (scanHeights f now first count s).dieselMintTransactions.length ≤
        maxHistoryRecords := by
  intro count
  induction count with
  | zero => intro first s h; exact h
  | succ k ih =>
    intro first s h
    exact ih _ _ (processBlock_history_le s first (f first) now h)

theorem applyOp_history_le (s : MonitorState) (op : MonitorOp)
    (h : s.dieselMintTransactions.length ≤ maxHistoryRecords) :
    (applyOp s op).dieselMintTransactions.length ≤ maxHistoryRecords := by
  cases op with
  | blockScan latest fetch now =>
    cases latest with
    | none => exact h
    | some latestBlockHeight =>
      simp only [applyOp, scanNewBlocks]
      by_cases hle : latestBlockHeight ≤ s.currentBlockHeight
      · rw [if_pos hle]; exact h
      · rw [if_neg hle]; exact scanHeights_history_le fetch now _ _ s h
  | mempoolScan m f now =>
    rw [applyOp, scanMempool_dieselMintTransactions]
    exact h

/-- C8. Starting from the constructor state, after any sequence of monitor
cycles — hence after any number of confirmed-candidate insertions through
`addDieselMintTransaction`, which evicts the oldest entries when over
capacity — the history list never exceeds
`config.alkanes.diesel.maxHistoryRecords`. -/
theorem history_length_bounded (ops : List MonitorOp) :
    (runOps initialState ops).dieselMintTransactions.length ≤ maxHistoryRecords := by
  have : ∀ (l : List MonitorOp) (s : MonitorState),
      s.dieselMintTransactions.length ≤ maxHistoryRecords →
      (runOps s l).dieselMintTransactions.length ≤ maxHistoryRecords := by
    intro l
    induction l with
    | nil => intro s h; exact h
    | cons op t ih =>
      intro s h
      exact ih _ (applyOp_history_le s op h)
  exact this ops initialState (by norm_num [initialState, maxHistoryRecords])

theorem scanHeights_succ_currentBlockHeight (f : Nat → Option Block) (now : Int) :
    ∀ (k first : Nat) (s : MonitorState),
      (scanHeights f now first (k + 1) s).currentBlockHeight = first + k := by
  intro k
  induction k with
  | zero => intro first s; rfl
  | succ k ih =>
    intro first s
    show (scanHeights f now (first + 1) (k + 1) _).currentBlockHeight = first + (k + 1)
    rw [ih (first + 1)]
    omega

theorem scanHeights_succ_cleared (f : Nat → Option Block) (now : Int) :
    ∀ (k first : Nat) (s : MonitorState),
      (scanHeights f now first (k + 1) s).pendingMintTransactions = [] ∧
      (scanHeights f now first (k + 1) s).processedTxids = [] := by
  intro k
  induction k with
  | zero => intro first s; exact ⟨rfl, rfl⟩
  | succ k ih =>
    intro first s
    exact ih (first + 1) _

/-- C2 (amended). When `getBlockCount` itself fails, `scanNewBlocks` leaves
the state (in particular `currentBlockHeight`) unchanged; but when it
succeeds with a height above `currentBlockHeight`, the scanner advances
`currentBlockHeight` all the way to that height regardless of the per-height
fetch results: a failure fetching or processing an individual block is
swallowed inside `processBlock`, so the failed height is skipped, not
retried. -/
theorem scanNewBlocks_height_advance :
    (∀ (s : MonitorState) (f : Nat → Option Block) (now : Int),
        scanNewBlocks s none f now = s) ∧
    ∀ (s : MonitorState) (latest : Nat) (f : Nat → Option Block) (now : Int),
      s.currentBlockHeight < latest →
      (scanNewBlocks s (some latest) f now).currentBlockHeight = latest := by
  constructor
  · intro s f now; rfl
  · intro s latest f now h
    simp only [scanNewBlocks]
    rw [if_neg (by omega)]
    obtain ⟨k, hk⟩ : ∃ k, latest - s.currentBlockHeight = k + 1 :=
      ⟨latest - s.currentBlockHeight - 1, by omega⟩
    rw [hk, scanHeights_succ_currentBlockHeight]
    omega

/-- C2 (witness): from height 0 with chain tip 2 and every block fetch
failing, the scanner still advances to height 2. -/
theorem scanNewBlocks_height_advance_witness :
    initialState.currentBlockHeight < 2 ∧
      (scanNewBlocks initialState (some 2) (fun _ => none) 5).currentBlockHeight = 2 :=
  ⟨by decide, scanNewBlocks_height_advance.2 initialState 2 (fun _ => none) 5 (by decide)⟩

/-- C2 (counterexample to the claim as stated).  Concrete run: the monitor is
at height 0, the chain tip is 1, and fetching block 1 fails (the fetch
oracle returns `none`, modelling the RPC throw that `processBlock` catches at
dieselMonitor.js:208).  The claim requires `currentBlockHeight` not to
advance to height 1 so that the next cycle retries it; the code nevertheless
sets `currentBlockHeight = 1`, permanently skipping the failed height. -/
theorem scanNewBlocks_advances_past_failed_height :
    ((fun _ => (none : Option Block)) 1 = none) ∧
      (scanNewBlocks initialState (some 1) (fun _ => none) 0).currentBlockHeight = 1 :=
  ⟨rfl, by decide⟩

/-- C10. Whenever `scanNewBlocks` observes a chain tip above the current
height (so at least one height is processed), it ends with the pending map
and the processed set both completely empty — not merely purged of the txids
confirmed in the processed blocks — for any per-height fetch outcomes. -/
theorem scanNewBlocks_clears_pending_and_processed (s : MonitorState)
    (latest : Nat) (f : Nat → Option Block) (now : Int)
    (h : s.currentBlockHeight < latest) :
    (scanNewBlocks s (some latest) f now).pendingMintTransactions = [] ∧
    (scanNewBlocks s (some latest) f now).processedTxids = [] := by
  simp only [scanNewBlocks]
  rw [if_neg (by omega)]
  obtain ⟨k, hk⟩ : ∃ k, latest - s.currentBlockHeight = k + 1 :=
    ⟨latest - s.currentBlockHeight - 1, by omega⟩
  rw [hk]
  exact scanHeights_succ_cleared f now k _ s

/-- C10 (witness): a state with a pending entry and a non-empty processed
set, scanning one new block (whose fetch fails — the clears happen
regardless), ends with both structures empty. -/
theorem scanNewBlocks_clears_witness :
    stateB.currentBlockHeight < 1 ∧
      (scanNewBlocks stateB (some 1) (fun _ => none) 0).pendingMintTransactions = [] ∧
      (scanNewBlocks stateB (some 1) (fun _ => none) 0).processedTxids = [] :=
  ⟨by decide, scanNewBlocks_clears_pending_and_processed stateB 1 (fun _ => none) 0 (by decide)⟩

theorem lookup_cons_of_eq (k : String) (a : String × MintInfo)
    (t : List (String × MintInfo)) (h : k = a.1) :
    List.lookup k (a :: t) = some a.2 := by
  obtain ⟨a1, a2⟩ := a
  simp [List.lookup, h]

theorem lookup_cons_of_ne (k : String) (a : String × MintInfo)
    (t : List (String × MintInfo)) (h : ¬ k = a.1) :
    List.lookup k (a :: t) = List.lookup k t := by
  obtain ⟨a1, a2⟩ := a
  simp [List.lookup, beq_eq_false_iff_ne.mpr h]

theorem lookup_map_replace_ne (k : String) (v : MintInfo) (k' : String)
    (h : k' ≠ k) :
    ∀ m : List (String × MintInfo),
      List.lookup k' (m.map (fun kv => if kv.1 = k then (k, v) else kv)) =
        List.lookup k' m := by
  intro m
  induction m with
  | nil => rfl
  | cons a t ih =>
    rw [List.map_cons]
    by_cases ha : a.1 = k
    · rw [if_pos ha, lookup_cons_of_ne k' (k, v) _ h,
        lookup_cons_of_ne k' a t (by rw [ha]; exact h)]
      exact ih
    · rw [if_neg ha]
      by_cases hk : k' = a.1
      · rw [lookup_cons_of_eq k' a _ hk, lookup_cons_of_eq k' a t hk]
      · rw [lookup_cons_of_ne k' a _ hk, lookup_cons_of_ne k' a t hk]
        exact ih

theorem lookup_append_single_ne (k : String) (v : MintInfo) (k' : String)
    (h : k' ≠ k) :
    ∀ m : List (String × MintInfo),
      List.lookup k' (m ++ [(k, v)]) = List.lookup k' m := by
  intro m
  induction m with
  | nil =>
    show List.lookup k' [(k, v)] = none
    rw [lookup_cons_of_ne k' (k, v) [] h]
    rfl
  | cons a t ih =>
    rw [List.cons_append]
    by_cases hk : k' = a.1
    · rw [lookup_cons_of_eq k' a _ hk, lookup_cons_of_eq k' a t hk]
    · rw [lookup_cons_of_ne k' a _ hk, lookup_cons_of_ne k' a t hk]
      exact ih

theorem lookup_mapSet_ne (m : List (String × MintInfo)) (k : String)
    (v : MintInfo) (k' : String) (h : k' ≠ k) :
    List.lookup k' (mapSet m k v) = List.lookup k' m := by
  unfold mapSet
  split
  · exact lookup_map_replace_ne k v k' h m
  · exact lookup_append_single_ne k v k' h m

theorem lookup_mapSet_self (m : List (String × MintInfo)) (k : String)
    (v : MintInfo) : List.lookup k (mapSet m k v) = some v := by
  unfold mapSet
  by_cases hmem : (m.any fun kv => kv.1 = k) = true
  · rw [if_pos hmem]
    induction m with
    | nil => simp at hmem
    | cons a t ih =>
      rw [List.map_cons]
      by_cases ha : a.1 = k
      · rw [if_pos ha]
        exact lookup_cons_of_eq k (k, v) _ rfl
      · rw [if_neg ha, lookup_cons_of_ne k a _ (fun hh => ha hh.symm)]
        apply ih
        rw [List.any_cons] at hmem
        rcases Bool.or_eq_true_iff.mp hmem with hh | hh
        · exact absurd (of_decide_eq_true hh) ha
        · exact hh
  · rw [if_neg hmem]
    induction m with
    | nil => exact lookup_cons_of_eq k (k, v) [] rfl
    | cons a t ih =>
      rw [List.any_cons] at hmem
      simp only [Bool.or_eq_true, not_or] at hmem
      obtain ⟨h1, h2⟩ := hmem
      have ha : ¬ a.1 = k := fun hh => h1 (decide_eq_true hh)
      rw [List.cons_append, lookup_cons_of_ne k a _ (fun hh => ha hh.symm)]
      exact ih h2

theorem processMempoolEntry_pendingMintTransactions (now : Int)
    (s : MonitorState) (e : String × Tx × ℚ) :
    (processMempoolEntry now s e).pendingMintTransactions =
      if hasOpReturn e.2.1 = true ∧ isDieselMintTransaction e.2.1 = true then
        mapSet s.pendingMintTransactions e.1
          { txid := e.1, feeRate := e.2.2, sender := extractSender e.2.1,
            timestamp := now, inMempool := true }
      else s.pendingMintTransactions := by
  simp only [processMempoolEntry]
  by_cases h : hasOpReturn e.2.1 = true ∧ isDieselMintTransaction e.2.1 = true
  · rw [if_pos h, if_pos h]
  · rw [if_neg h, if_neg h]

theorem lookup_foldl_processMempoolEntry (now : Int) :
    ∀ (l : List (String × Tx × ℚ)) (s : MonitorState) (k : String) (v : MintInfo),
      List.lookup k (l.foldl (processMempoolEntry now) s).pendingMintTransactions =
          some v →
      List.lookup k s.pendingMintTransactions = some v ∨
        ∃ e ∈ l, e.1 = k ∧ v.feeRate = e.2.2 := by
  intro l
  induction l with
  | nil => intro s k v h; exact Or.inl h
  | cons e t ih =>
    intro s k v h
    rw [List.foldl_cons] at h
    rcases ih _ k v h with h1 | ⟨e', he', hek, hfr⟩
    · rw [processMempoolEntry_pendingMintTransactions] at h1
      by_cases hc : hasOpReturn e.2.1 = true ∧ isDieselMintTransaction e.2.1 = true
      · rw [if_pos hc] at h1
        by_cases hk : k = e.1
        · subst hk
          rw [lookup_mapSet_self] at h1
          refine Or.inr ⟨e, List.mem_cons_self e t, rfl, ?_⟩
          cases h1
          rfl
        · rw [lookup_mapSet_ne _ _ _ _ hk] at h1
          exact Or.inl h1
      · rw [if_neg hc] at h1
        exact Or.inl h1
    · exact Or.inr ⟨e', List.mem_cons_of_mem e he', hek, hfr⟩

theorem lookup_isSome_mapSet (m : List (String × MintInfo)) (k : String)
    (v : MintInfo) (k' : String)
    (h : (List.lookup k' m).isSome = true) :
    (List.lookup k' (mapSet m k v)).isSome = true := by
  by_cases hk : k' = k
  · subst hk
    rw [lookup_mapSet_self]
    rfl
  · rw [lookup_mapSet_ne m k v k' hk]
    exact h

theorem lookup_isSome_foldl_processMempoolEntry (now : Int) :
    ∀ (l : List (String × Tx × ℚ)) (s : MonitorState) (k : String),
      (List.lookup k s.pendingMintTransactions).isSome = true →
      (List.lookup k
        (l.foldl (processMempoolEntry now) s).pendingMintTransactions).isSome = true := by
  intro l
  induction l with
  | nil => intro s k h; exact h
  | cons e t ih =>
    intro s k h
    rw [List.foldl_cons]
    apply ih
    rw [processMempoolEntry_pendingMintTransactions]
    by_cases hc : hasOpReturn e.2.1 = true ∧ isDieselMintTransaction e.2.1 = true
    · rw [if_pos hc]
      exact lookup_isSome_mapSet _ _ _ _ h
    · rw [if_neg hc]
      exact h

theorem mem_insertByFeeRate (t x : HighFeeTx) :
    ∀ l : List HighFeeTx, x ∈ insertByFeeRate t l → x = t ∨ x ∈ l := by
  intro l
  induction l with
  | nil =>
    intro h
    exact Or.inl (List.mem_singleton.mp h)
  | cons a s ih =>
    intro h
    unfold insertByFeeRate at h
    by_cases hc : a.feeRate < t.feeRate
    · rw [if_pos hc] at h
      rcases List.mem_cons.mp h with h | h
      · exact Or.inl h
      · exact Or.inr h
    · rw [if_neg hc] at h
      rcases List.mem_cons.mp h with h | h
      · exact Or.inr (List.mem_cons.mpr (Or.inl h))
      · rcases ih h with h | h
        · exact Or.inl h
        · exact Or.inr (List.mem_cons.mpr (Or.inr h))

theorem mem_sortByFeeRateDesc (x : HighFeeTx) :
    ∀ l : List HighFeeTx, x ∈ sortByFeeRateDesc l → x ∈ l := by
  intro l
  induction l with
  | nil => intro h; exact h
  | cons a s ih =>
    intro h
    unfold sortByFeeRateDesc at h
    rw [List.foldr_cons] at h
    rcases mem_insertByFeeRate a x (List.foldr insertByFeeRate [] s) h with h | h
    · rw [h]; exact List.mem_cons_self a s
    · exact List.mem_cons.mpr (Or.inr (ih h))

theorem mem_txDetailsMap (f : String → Option Tx) (l : List HighFeeTx)
    (e : String × Tx × ℚ) (h : e ∈ txDetailsMap f l) :
    ∃ t ∈ l, t.txid = e.1 ∧ t.feeRate = e.2.2 := by
  unfold txDetailsMap at h
  obtain ⟨t, ht, hft⟩ := List.mem_filterMap.mp h
  cases hf : f t.txid with
  | none => rw [hf] at hft; cases hft
  | some tx =>
    rw [hf] at hft
    cases hft
    exact ⟨t, ht, rfl, rfl⟩

theorem mem_highFeeRateTxs (processed : List String)
    (snapshot : List (String × MempoolEntry)) (t : HighFeeTx)
    (h : t ∈ highFeeRateTxs processed snapshot) :
    ∃ e, (t.txid, e) ∈ snapshot ∧ t.feeRate = approxFeeRate e := by
  simp only [highFeeRateTxs] at h
  obtain ⟨kv, hkv, hf⟩ := List.mem_filterMap.mp h
  by_cases h1 : kv.1 ∉ processed ∧ kv.2.fees.isSome = true
  · rw [if_pos h1] at hf
    by_cases h2 : (10:ℚ) ≤ approxFeeRate kv.2
    · rw [if_pos h2] at hf
      cases hf
      exact ⟨kv.2, by rwa [Prod.mk.eta], rfl⟩
    · rw [if_neg h2] at hf; cases hf
  · rw [if_neg h1] at hf; cases hf

/-- C7 (amended). After a completed `scanMempool` cycle, every pending entry
either predates the cycle or carries exactly the approximate fee rate
computed from its mempool snapshot entry
(`fees.base * 1e8 / (vsize || size)`), carried through `txDetailsMap` —
the precise `calculateFeeRate` is never applied to mempool transactions. -/
theorem pending_feeRate_is_snapshot_approximation (s : MonitorState)
    (snapshot : List (String × MempoolEntry)) (f : String → Option Tx)
    (now : Int) (k : String) (v : MintInfo)
    (h : List.lookup k
        (scanMempool s (some snapshot) f now).pendingMintTransactions = some v) :
    List.lookup k s.pendingMintTransactions = some v ∨
      ∃ e, (k, e) ∈ snapshot ∧ v.feeRate = approxFeeRate e := by
  revert h
  simp only [scanMempool]
  by_cases h1 : snapshot.isEmpty = true
  · rw [if_pos h1]; exact fun h => Or.inl h
  · rw [if_neg h1]
    by_cases h2 : (highFeeRateTxs s.processedTxids snapshot).isEmpty = true
    · rw [if_pos h2]; exact fun h => Or.inl h
    · rw [if_neg h2]
      intro h
      rcases lookup_foldl_processMempoolEntry now _ s k v h with hh | ⟨e, he, hek, hfr⟩
      · exact Or.inl hh
      · obtain ⟨t, ht, htk, htf⟩ := mem_txDetailsMap f _ e he
        obtain ⟨me, hme, hmf⟩ :=
          mem_highFeeRateTxs s.processedTxids snapshot t (mem_sortByFeeRateDesc t _ ht)
        refine Or.inr ⟨me, ?_, ?_⟩
        · rw [htk, hek] at hme
          exact hme
        · rw [hfr, ← htf, hmf]

/-- C9 (amended). A `scanMempool` cycle never removes entries from the
pending map — in particular a pending txid absent from the scan's snapshot
survives the scan.  (The eviction by snapshot absence at
dieselMonitor.js:437 applies only to `processedTxids`;
`cleanupMempoolTransactions` is defined but never invoked.  Pending entries
are removed only by block processing.) -/
theorem scanMempool_never_removes_pending (s : MonitorState)
    (m : Option (List (String × MempoolEntry))) (f : String → Option Tx)
    (now : Int) (k : String)
    (h : (List.lookup k s.pendingMintTransactions).isSome = true) :
    (List.lookup k
      (scanMempool s m f now).pendingMintTransactions).isSome = true := by
  cases m with
  | none => exact h
  | some snapshot =>
    simp only [scanMempool]
    by_cases h1 : snapshot.isEmpty = true
    · rw [if_pos h1]; exact h
    · rw [if_neg h1]
      by_cases h2 : (highFeeRateTxs s.processedTxids snapshot).isEmpty = true
      · rw [if_pos h2]; exact h
      · rw [if_neg h2]
        exact lookup_isSome_foldl_processMempoolEntry now _ s k h

theorem approxFeeRate_entryA : approxFeeRate entryA = 20 := by
  norm_num [approxFeeRate, entryA, jsOrNat]

theorem highFeeRateTxs_scenarioA :
    highFeeRateTxs initialState.processedTxids snapA = [hftA] := by
  simp only [highFeeRateTxs, snapA, initialState, List.filterMap_cons,
    List.filterMap_nil, approxFeeRate_entryA]
  norm_num [entryA, jsOrNat, hftA]

theorem scanMempool_scenarioA :
    scanMempool initialState (some snapA) fetchA 0 = scanAState := by
  simp only [scanMempool]
  rw [highFeeRateTxs_scenarioA]
  decide

theorem scanMempool_scenarioA_pending :
    List.lookup "t1"
      (scanMempool initialState (some snapA) fetchA 0).pendingMintTransactions =
      some infoA := by
  rw [scanMempool_scenarioA]
  decide

/-- C4 (counterexample to the claim as stated).  A single mempool scan —
with no block processed, hence no confirmed winner — replaces the
`highestGasRate` record with the data of an unconfirmed mempool candidate:
`scanMempool` calls `updateHighestGasRate` for each pending mint candidate
(dieselMonitor.js:426), contradicting "no unconfirmed (mempool-derived)
candidate ever updates it". -/
theorem mempool_candidate_replaces_record :
    (scanMempool initialState (some snapA) fetchA 0).highestGasRate =
      { txid := some "t1", feeRate := 20, sender := some "addrA",
        timestamp := some 0 } ∧
    initialState.highestGasRate.feeRate = 0 := by
  constructor
  · rw [scanMempool_scenarioA]
    rfl
  · rfl

/-- C7 (counterexample to the claim as stated).  The pending entry recorded
for the fetched mint candidate `"t1"` carries the approximate snapshot rate
20 sat/vB, while `calculateFeeRate` on the fetched full transaction yields
1000000 sat/vB: the stored rate is the snapshot approximation, not the
FeeRateCalculator result. -/
theorem pending_stores_approximate_rate :
    List.lookup "t1"
        (scanMempool initialState (some snapA) fetchA 0).pendingMintTransactions =
      some infoA ∧
    infoA.feeRate = 20 ∧
    approxFeeRate entryA = 20 ∧
    calculateFeeRate mintTxA = some 1000000 ∧
    (20:ℚ) ≠ 1000000 := by
  refine ⟨scanMempool_scenarioA_pending, rfl, approxFeeRate_entryA, ?_, by decide⟩
  norm_num [calculateFeeRate, feeOf, inputContribution, outputContribution,
    resolvedVsize, jsOrNat, mintTxA]

/-- C7 (witness): the amended theorem applied to scenario A; the recorded
entry for `"t1"` is new and matches its snapshot entry's approximate rate. -/
theorem pending_feeRate_is_snapshot_approximation_witness :
    (List.lookup "t1"
        (scanMempool initialState (some snapA) fetchA 0).pendingMintTransactions =
      some infoA) ∧
    (List.lookup "t1" initialState.pendingMintTransactions = some infoA ∨
      ∃ e, ("t1", e) ∈ snapA ∧ infoA.feeRate = approxFeeRate e) :=
  ⟨scanMempool_scenarioA_pending,
    pending_feeRate_is_snapshot_approximation initialState snapA fetchA 0 "t1"
      infoA scanMempool_scenarioA_pending⟩

theorem highFeeRateTxs_scenarioB :
    highFeeRateTxs stateB.processedTxids snapB = [hftB] := by
  have h20 : approxFeeRate entryB = 20 := by
    norm_num [approxFeeRate, entryB, jsOrNat]
  simp only [highFeeRateTxs, snapB, stateB, initialState, List.filterMap_cons,
    List.filterMap_nil, h20]
  norm_num [entryB, jsOrNat, hftB]

theorem scanMempool_scenarioB :
    scanMempool stateB (some snapB) fetchB 0 = scanBState := by
  simp only [scanMempool]
  rw [highFeeRateTxs_scenarioB]
  decide

/-- C9 (counterexample to the claim as stated).  A completed mempool scan
(the snapshot is non-empty and one transaction is fetched and classified)
leaves the stale pending entry `"a"` in the pending map even though `"a"`
is absent from that scan's snapshot — scanMempool removes nothing from the
pending map. -/
theorem stale_pending_entry_survives_scan :
    List.lookup "a"
        (scanMempool stateB (some snapB) fetchB 0).pendingMintTransactions =
      some staleInfoB ∧
    List.lookup "a" snapB = none := by
  constructor
  · rw [scanMempool_scenarioB]
    decide
  · decide

/-- C9 (witness): the amended theorem applied to scenario B; the pending
entry `"a"` present before the scan is still present afterwards. -/
theorem scanMempool_never_removes_pending_witness :
    ((List.lookup "a" stateB.pendingMintTransactions).isSome = true) ∧
    ((List.lookup "a"
      (scanMempool stateB (some snapB) fetchB 0).pendingMintTransactions).isSome =
      true) :=
  ⟨by decide,
    scanMempool_never_removes_pending stateB (some snapB) fetchB 0 "a" (by decide)⟩

end DieselMonitor
